import Mathlib

/-!
# Verification of the anyrouter check-in core (`checkin.py`)

A shallow embedding of the check-in script.  Python strings are modelled as
`List Char` (`PStr`), Python dicts as association lists built exclusively by
`dupd` (insert-or-overwrite, which is exactly how `dict.__setitem__` and
`dict` unpacking behave), machine-independent numbers as `ℚ`, fallible
operations as `Option`/`Except`, and external effects (the browser, HTTP
responses, the hash file, the notification collaborator) as explicit inputs.
-/

set_option maxHeartbeats 1000000

/-- Python `str` modelled as its sequence of characters. -/
abbrev PStr := List Char

/-- A Python dict with string keys and string values, as an association list.
All dicts in the model are built by `dupd`, so keys are unique and insertion
order is preserved, matching CPython semantics. -/
abbrev CookieDict := List (PStr × PStr)

/-- `d[k] = v` on a Python dict: overwrite the value in place if the key is
present (keeping its position), else append the new binding. -/
def dupd (d : CookieDict) (k v : PStr) : CookieDict :=
  if d.any (fun p => decide (p.1 = k)) then
    d.map (fun p => if p.1 = k then (k, v) else p)
  else d ++ [(k, v)]

/-- Dict lookup: the value at key `k`, if present. -/
def dget (d : CookieDict) (k : PStr) : Option PStr :=
  (d.find? (fun p => decide (p.1 = k))).map (fun p => p.2)

/-- `k in d` on a Python dict (key membership). -/
def dhas (d : CookieDict) (k : PStr) : Bool :=
  d.any (fun p => decide (p.1 = k))

/-- `\x7b**a, **b\x7d`: start from `a` and write every binding of `b` over it,
in order — last write wins. -/
def dmerge (a b : CookieDict) : CookieDict :=
  b.foldl (fun d p => dupd d p.1 p.2) a

/-- The shape of `account.cookies` as seen by `parse_cookies`: a dict, a
string, or any other value. -/
inductive CookiesData where
  | dict (d : CookieDict)
  | str (s : PStr)
  | other
deriving DecidableEq

/-- Python `str.split(';')`: split at every `';'`, keeping empty segments
(so `"".split(';') == ['']`). -/
def splitSemi : PStr → List PStr
  | [] => [[]]
  | c :: rest =>
    match splitSemi rest with
    | [] => [[]]
    | seg :: segs => if c = ';' then [] :: seg :: segs else (c :: seg) :: segs

/-- Python `str.split(sep, 1)` when the separator occurs: the part before the
first `sep` and the part after it; `none` when `sep` does not occur. -/
def splitFirst (sep : Char) : PStr → Option (PStr × PStr)
  | [] => none
  | c :: rest =>
    if c = sep then some ([], rest)
    else match splitFirst sep rest with
         | none => none
         | some (a, b) => some (c :: a, b)

/-- Python `str.strip()`: drop whitespace from both ends. -/
def pstrip (s : PStr) : PStr :=
  ((s.dropWhile Char.isWhitespace).reverse.dropWhile Char.isWhitespace).reverse

/-- The body of `parse_cookies`' loop (checkin.py:60-63): a segment containing
`'='` is stripped and split on the first `'='` into a key/value binding
written into the dict; other segments are ignored. -/
def parseCookieStep (d : CookieDict) (cookie : PStr) : CookieDict :=
  if cookie.contains '=' then
    match splitFirst '=' (pstrip cookie) with
    | some (key, value) => dupd d key value
    | none => d
  else d

/-- `parse_cookies` (checkin.py:53-65): a dict is returned unchanged; a string
is split on `';'` and each segment fed to `parseCookieStep`; anything else
yields an empty dict. -/
def parse_cookies (cookies_data : CookiesData) : CookieDict :=
  match cookies_data with
  | .dict d => d
  | .str s => (splitSemi s).foldl parseCookieStep []
  | .other => []

/-- One cookie as returned by `page.context.cookies()`: `.get('name')` and
`.get('value')` may each be absent. -/
structure BrowserCookie where
  name : Option PStr
  value : Option PStr
deriving DecidableEq

/-- The filtering loop of `get_waf_cookies_with_playwright` (checkin.py:104-109):
keep the cookies whose name is required and whose value is not `None`. -/
def collectWafCookies (cookies : List BrowserCookie) (required_cookies : List PStr) :
    CookieDict :=
  cookies.foldl
    (fun d c =>
      match c.name, c.value with
      | some n, some v => if n ∈ required_cookies then dupd d n v else d
      | _, _ => d)
    []

/-- `get_waf_cookies_with_playwright` (checkin.py:68-129), with the browser
session modelled by its outcome: either an exception during navigation
(`.error`, the path of checkin.py:126-129, returning `None`) or the list of
cookies visible to the context.  Required names that are missing make the
whole acquisition fail (`None`); otherwise the filtered dict is returned. -/
def get_waf_cookies_with_playwright
    (navigation : Except String (List BrowserCookie))
    (required_cookies : List PStr) : Option CookieDict :=
  match navigation with
  | .error _ => none
  | .ok cookies =>
    let waf_cookies := collectWafCookies cookies required_cookies
    let missing_cookies := required_cookies.filter (fun c => ¬ dhas waf_cookies c)
    if missing_cookies = [] then some waf_cookies else none

/-- Modelled from the spec: the `ProviderDefinition` produced by the external
configuration collaborator (`utils/config`, not part of the core source) —
base domain, paths, identifier header name, required WAF cookie names and the
two flags `requiresWafCookies` / `requiresManualCheckin`. -/
structure ProviderConfig where
  domain : String
  login_path : String
  sign_in_path : String
  user_info_path : String
  api_user_key : String
  waf_cookie_names : List PStr
  requires_waf_cookies : Bool
  requires_manual_checkin : Bool

/-- Modelled from the spec: accessor for the `requiresWafCookies` flag. -/
def ProviderConfig.needs_waf_cookies (pc : ProviderConfig) : Bool :=
  pc.requires_waf_cookies

/-- Modelled from the spec: accessor for the `requiresManualCheckin` flag. -/
def ProviderConfig.needs_manual_check_in (pc : ProviderConfig) : Bool :=
  pc.requires_manual_checkin

/-- `prepare_cookies` (checkin.py:154-167), with the WAF acquisition outcome
passed in.  When the provider needs WAF cookies, a falsy acquisition result
(`None` or an empty dict — `if not waf_cookies`) fails the account; otherwise
the merged dict `\x7b**waf_cookies, **user_cookies\x7d` is returned. -/
def prepare_cookies (needs_waf : Bool) (acquired : Option CookieDict)
    (user_cookies : CookieDict) : Option CookieDict :=
  if needs_waf then
    match acquired with
    | none => none
    | some waf_cookies =>
        if waf_cookies = [] then none
        else some (dmerge waf_cookies user_cookies)
  else some (dmerge [] user_cookies)

-- sanity examples (cookie layer)
example : parse_cookies (.str ("a=1; b=2".data)) =
    [("a".data, "1".data), ("b".data, "2".data)] := by decide
example : parse_cookies (.dict [("k".data, "v".data)]) = [("k".data, "v".data)] := rfl
example : parse_cookies .other = [] := rfl
example :
    get_waf_cookies_with_playwright
      (.ok [⟨some "a".data, some "1".data⟩, ⟨some "b".data, none⟩])
      ["a".data, "b".data] = none := by decide
example :
    get_waf_cookies_with_playwright (.ok [⟨some "a".data, some "1".data⟩])
      ["a".data] = some [("a".data, "1".data)] := by decide
example : prepare_cookies true (some []) [("u".data, "1".data)] = none := by decide
example :
    prepare_cookies true (some [("w".data, "waf".data), ("u".data, "shared".data)])
      [("u".data, "user".data)] =
      some [("w".data, "waf".data), ("u".data, "user".data)] := by decide

/-- A decoded JSON value, as `response.json()` yields it. -/
inductive JVal where
  | null
  | bool (b : Bool)
  | num (q : ℚ)
  | str (s : String)
  | arr (xs : List JVal)
  | obj (kvs : List (String × JVal))

/-- `dict.get(k)` on a decoded JSON object: the value bound to `k`, the last
binding winning (CPython keeps the last duplicate), `None` when absent. -/
def getKey (kvs : List (String × JVal)) (k : String) : Option JVal :=
  (kvs.reverse.find? (fun p => decide (p.1 = k))).map (fun p => p.2)

/-- Python truthiness of a JSON value. -/
def truthy : JVal → Bool
  | .null => false
  | .bool b => b
  | .num q => decide (q ≠ 0)
  | .str s => decide (s ≠ "")
  | .arr xs => !xs.isEmpty
  | .obj kvs => !kvs.isEmpty

/-- Python truthiness of a `dict.get` result (`None` is falsy). -/
def truthyOpt : Option JVal → Bool
  | none => false
  | some v => truthy v

/-- The numeric reading of a JSON value under Python arithmetic/comparison:
numbers are themselves, booleans are `1`/`0` (Python `bool` is an `int`),
everything else does not compare equal to a number. -/
def jNum : JVal → Option ℚ
  | .num q => some q
  | .bool b => some (if b then 1 else 0)
  | _ => none

/-- Python `dict.get(k) == n` for an integer literal `n`. -/
def pyEqNum (v : Option JVal) (n : ℚ) : Bool :=
  match v with
  | some w => match jNum w with
              | some q => decide (q = n)
              | none => false
  | none => false

/-- An HTTP response as the executor sees it: the status code, and the
outcome of `response.json()` — a decoded value, or `JSONDecodeError` carrying
the raw `response.text`. -/
structure HttpResponse where
  status : ℕ
  body : Except PStr JVal

/-- The success-field test of `execute_check_in` (checkin.py:185):
`result.get('ret') == 1 or result.get('code') == 0 or result.get('success')`. -/
def checkinSuccessFields (kvs : List (String × JVal)) : Bool :=
  pyEqNum (getKey kvs "ret") 1 || pyEqNum (getKey kvs "code") 0 ||
    truthyOpt (getKey kvs "success")

/-- Python `needle in hay` on strings: contiguous substring membership. -/
def hasSubstr (needle : PStr) : PStr → Bool
  | [] => needle.isEmpty
  | c :: rest => needle.isPrefixOf (c :: rest) || hasSubstr needle rest

/-- Case-insensitive substring test `'success' in text.lower()`
(checkin.py:194). -/
def containsSuccess (text : PStr) : Bool :=
  hasSubstr ("success".data) (text.map Char.toLower)

/-- `execute_check_in` (checkin.py:170-202).  On HTTP 200 with a decoded JSON
object the success fields decide; a 200 body that decodes to a non-object JSON
value makes `result.get` raise `AttributeError`, which `execute_check_in` does
not catch (`except json.JSONDecodeError` only) — modelled as `.error`; a 200
body that does not decode falls back to the substring test; any other status
returns `False`. -/
def execute_check_in (response : HttpResponse) : Except String Bool :=
  if response.status = 200 then
    match response.body with
    | .ok (.obj kvs) => .ok (checkinSuccessFields kvs)
    | .ok _ => .error "AttributeError"
    | .error raw => .ok (containsSuccess raw)
  else .ok false

/-- The outcome of the user-info GET as `get_user_info` sees it: a transport
exception raised by `client.get` (checkin.py:150), or a response. -/
inductive FetchOutcome where
  | exn (msg : String)
  | resp (status : ℕ) (body : Except PStr JVal)

/-- The user-info result dict (checkin.py:143-151). -/
structure UserInfoResult where
  success : Bool
  quota : ℚ
  used_quota : ℚ
  error : Option String

/-- Python `str(e)[:50]`. -/
def take50 (s : String) : String := String.mk (s.data.take 50)

/-- A failure result of `get_user_info`. -/
def uiFailure (e : String) : UserInfoResult := ⟨false, 0, 0, some e⟩

/-- Python `round(q, 2)` on the exact rational value, as round-half-up on
hundredths (tie behaviour on half-cent values is immaterial to every claim). -/
def round2 (q : ℚ) : ℚ :=
  ((q * 100 + 1 / 2).num.fdiv ((q * 100 + 1 / 2).den : ℤ) : ℚ) / 100

/-- `get_user_info` (checkin.py:132-151).  The whole body is wrapped in
`try/except Exception`, so every outcome — transport exception, undecodable
body, non-object payloads (whose `.get` raises `AttributeError`), non-numeric
quota fields (`TypeError` in the division) — is converted to a failure
result; no exception escapes. -/
def get_user_info (outcome : FetchOutcome) : UserInfoResult :=
  match outcome with
  | .exn m => uiFailure ("Failed to get user info: " ++ take50 m ++ "...")
  | .resp status body =>
    if status = 200 then
      match body with
      | .error _ => uiFailure "Failed to get user info: JSON decode error..."
      | .ok j =>
        match j with
        | .obj kvs =>
          if truthyOpt (getKey kvs "success") then
            match (getKey kvs "data").getD (.obj []) with
            | .obj ud =>
              match jNum ((getKey ud "quota").getD (.num 0)),
                    jNum ((getKey ud "used_quota").getD (.num 0)) with
              | some q, some u =>
                ⟨true, round2 (q / 500000), round2 (u / 500000), none⟩
              | _, _ => uiFailure "Failed to get user info: TypeError..."
            | _ => uiFailure "Failed to get user info: AttributeError..."
          else uiFailure ("Failed to get user info: HTTP " ++ toString status)
        | _ => uiFailure "Failed to get user info: AttributeError..."
    else uiFailure ("Failed to get user info: HTTP " ++ toString status)

/-- `check_in_account` (checkin.py:205-263), with the external world passed
in: the provider lookup result, the raw credential blob, the WAF-acquisition
outcome, the user-info fetch outcome and the check-in response.  Exceptions
raised inside the `try` block (in particular the `AttributeError` that
`execute_check_in` may raise) are caught at checkin.py:259 and become
`(False, None)`. -/
def check_in_account (provider_config : Option ProviderConfig)
    (cookies_data : CookiesData) (acquired : Option CookieDict)
    (user_info_fetch : FetchOutcome) (checkin_response : HttpResponse) :
    Bool × Option UserInfoResult :=
  match provider_config with
  | none => (false, none)
  | some pc =>
    let user_cookies := parse_cookies cookies_data
    if user_cookies = [] then (false, none)
    else
      match prepare_cookies pc.needs_waf_cookies acquired user_cookies with
      | none => (false, none)
      | some _ =>
        let user_info := get_user_info user_info_fetch
        if pc.needs_manual_check_in then
          match execute_check_in checkin_response with
          | .ok success => (success, some user_info)
          | .error _ => (false, none)
        else (true, some user_info)

-- sanity examples (session layer)
example : execute_check_in ⟨200, .error "OK success".data⟩ = .ok true := rfl
example : execute_check_in ⟨200, .ok (.arr [])⟩ = .error "AttributeError" := rfl
example : execute_check_in ⟨503, .ok (.obj [("ret", .num 1)])⟩ = .ok false := rfl
example : execute_check_in ⟨200, .ok (.obj [("ret", .num 1)])⟩ = .ok true := rfl
example :
    (get_user_info (.resp 200 (.ok (.obj [("success", .bool true),
      ("data", .obj [("quota", .num 1000000), ("used_quota", .num 500000)])])))).success
      = true := rfl
example : (get_user_info (.exn "timeout")).success = false := rfl

/-- Truncate to 32 bits. -/
def w32 (n : ℕ) : ℕ := n % 4294967296

/-- Truncate to 8 bits. -/
def w8 (n : ℕ) : ℕ := n % 256

/-- 32-bit right rotation. -/
def rotR32 (n x : ℕ) : ℕ := w32 ((x >>> n) ||| (x <<< (32 - n)))

/-- 32-bit bitwise complement. -/
def not32 (x : ℕ) : ℕ := 4294967295 ^^^ x

/-- SHA-256 Σ0. -/
def sumSig0 (x : ℕ) : ℕ := rotR32 2 x ^^^ rotR32 13 x ^^^ rotR32 22 x

/-- SHA-256 Σ1. -/
def sumSig1 (x : ℕ) : ℕ := rotR32 6 x ^^^ rotR32 11 x ^^^ rotR32 25 x

/-- SHA-256 σ0. -/
def smallSig0 (x : ℕ) : ℕ := rotR32 7 x ^^^ rotR32 18 x ^^^ (x >>> 3)

/-- SHA-256 σ1. -/
def smallSig1 (x : ℕ) : ℕ := rotR32 17 x ^^^ rotR32 19 x ^^^ (x >>> 10)

/-- SHA-256 Ch. -/
def chooseFn (x y z : ℕ) : ℕ := (x &&& y) ^^^ (not32 x &&& z)

/-- SHA-256 Maj. -/
def majorityFn (x y z : ℕ) : ℕ := (x &&& y) ^^^ (x &&& z) ^^^ (y &&& z)

/-- The 64 SHA-256 round constants. -/
def K256 : List ℕ :=
  [1116352408, 1899447441, 3049323471, 3921009573, 961987163, 1508970993,
   2453635748, 2870763221, 3624381080, 310598401, 607225278, 1426881987,
   1925078388, 2162078206, 2614888103, 3248222580, 3835390401, 4022224774,
   264347078, 604807628, 770255983, 1249150122, 1555081692, 1996064986,
   2554220882, 2821834349, 2952996808, 3210313671, 3336571891, 3584528711,
   113926993, 338241895, 666307205, 773529912, 1294757372, 1396182291,
   1695183700, 1986661051, 2177026350, 2456956037, 2730485921, 2820302411,
   3259730800, 3345764771, 3516065817, 3600352804, 4094571909, 275423344,
   430227734, 506948616, 659060556, 883997877, 958139571, 1322822218,
   1537002063, 1747873779, 1955562222, 2024104815, 2227730452, 2361852424,
   2428436474, 2756734187, 3204031479, 3329325298]

/-- The eight working variables of the SHA-256 compression function. -/
structure Hash8 where
  h0 : ℕ
  h1 : ℕ
  h2 : ℕ
  h3 : ℕ
  h4 : ℕ
  h5 : ℕ
  h6 : ℕ
  h7 : ℕ

/-- The SHA-256 initial hash value. -/
def initH : Hash8 :=
  ⟨1779033703, 3144134277, 1013904242, 2773480762,
   1359893119, 2600822924, 528734635, 1541459225⟩

/-- SHA-256 padding: append `0x80`, zero bytes to 56 mod 64, and the 64-bit
big-endian bit length. -/
def padMessage (msg : List ℕ) : List ℕ :=
  let len := msg.length
  let bits := len * 8
  msg ++ [128] ++ List.replicate ((119 - len % 64) % 64) 0 ++
    [w8 (bits >>> 56), w8 (bits >>> 48), w8 (bits >>> 40), w8 (bits >>> 32),
     w8 (bits >>> 24), w8 (bits >>> 16), w8 (bits >>> 8), w8 bits]

/-- Pack bytes into big-endian 32-bit words. -/
def bytesToWords : List ℕ → List ℕ
  | b0 :: b1 :: b2 :: b3 :: rest =>
    (((b0 * 256 + b1) * 256 + b2) * 256 + b3) :: bytesToWords rest
  | _ => []

/-- One extension step of the SHA-256 message schedule. -/
def scheduleStep (ws : List ℕ) : List ℕ :=
  let n := ws.length
  ws ++ [w32 (smallSig1 (ws.getD (n - 2) 0) + ws.getD (n - 7) 0 +
              smallSig0 (ws.getD (n - 15) 0) + ws.getD (n - 16) 0)]

/-- Extend the message schedule `n` times. -/
def buildSchedule : ℕ → List ℕ → List ℕ
  | 0, ws => ws
  | n + 1, ws => buildSchedule n (scheduleStep ws)

/-- One SHA-256 compression round; `kw` is the round constant plus the
schedule word. -/
def roundStep (st : Hash8) (kw : ℕ) : Hash8 :=
  let t1 := w32 (st.h7 + sumSig1 st.h4 + chooseFn st.h4 st.h5 st.h6 + kw)
  let t2 := w32 (sumSig0 st.h0 + majorityFn st.h0 st.h1 st.h2)
  ⟨w32 (t1 + t2), st.h0, st.h1, st.h2, w32 (st.h3 + t1), st.h4, st.h5, st.h6⟩

/-- Compress one 64-byte block into the running hash value. -/
def processBlock (st : Hash8) (block : List ℕ) : Hash8 :=
  let ws := buildSchedule 48 (bytesToWords block)
  let kws := (List.zip K256 ws).map (fun p => w32 (p.1 + p.2))
  let r := kws.foldl roundStep st
  ⟨w32 (st.h0 + r.h0), w32 (st.h1 + r.h1), w32 (st.h2 + r.h2), w32 (st.h3 + r.h3),
   w32 (st.h4 + r.h4), w32 (st.h5 + r.h5), w32 (st.h6 + r.h6), w32 (st.h7 + r.h7)⟩

/-- Cut a byte list into 64-byte blocks. -/
def toBlocks (l : List ℕ) : List (List ℕ) :=
  if h : l = [] then []
  else (l.take 64) :: toBlocks (l.drop 64)
termination_by l.length
decreasing_by
  have hpos : 0 < l.length := List.length_pos.mpr h
  simp only [List.length_drop]
  omega

/-- The SHA-256 digest state of a byte message. -/
def sha256Words (msg : List ℕ) : Hash8 :=
  (toBlocks (padMessage msg)).foldl processBlock initH

/-- A 32-bit word as four big-endian bytes. -/
def wordBytes (w : ℕ) : List ℕ := [w >>> 24 % 256, w >>> 16 % 256, w >>> 8 % 256, w % 256]

/-- The 32 digest bytes of a SHA-256 state. -/
def h8Bytes (st : Hash8) : List ℕ :=
  wordBytes st.h0 ++ wordBytes st.h1 ++ wordBytes st.h2 ++ wordBytes st.h3 ++
    wordBytes st.h4 ++ wordBytes st.h5 ++ wordBytes st.h6 ++ wordBytes st.h7

/-- The sixteen lowercase hex digits. -/
def hexDigits : List Char := "0123456789abcdef".data

/-- The hex digit of a value below 16. -/
def hexDigit (n : ℕ) : Char := hexDigits.getD n '0'

/-- A byte as two hex characters. -/
def byteHex (b : ℕ) : List Char := [hexDigit (b / 16 % 16), hexDigit (b % 16)]

/-- `hashlib.sha256(bytes).hexdigest()` as a character list. -/
def sha256hexChars (msg : List ℕ) : List Char :=
  (h8Bytes (sha256Words msg)).bind byteHex

/-- UTF-8 encoding of one character. -/
def utf8Char (c : Char) : List ℕ :=
  let n := c.toNat
  if n < 128 then [n]
  else if n < 2048 then [192 + n / 64, 128 + n % 64]
  else if n < 65536 then [224 + n / 4096, 128 + n / 64 % 64, 128 + n % 64]
  else [240 + n / 262144, 128 + n / 4096 % 64, 128 + n / 64 % 64, 128 + n % 64]

/-- Python `str.encode('utf-8')`. -/
def utf8Encode (s : List Char) : List ℕ := s.bind utf8Char

/-- Python `repr` of a nonnegative float that is a multiple of 1/100 (the only
values the balance snapshot holds: quotas rounded to 2 decimals): trailing
zeros of the fraction are dropped, but at least one fractional digit is kept,
so `2 ↦ "2.0"`, `1.25 ↦ "1.25"`, `0.1 ↦ "0.1"`. -/
def floatReprAbs (q : ℚ) : String :=
  if (q * 100).den = 1 then
    let c := (q * 100).num.toNat
    let i := c / 100
    let f := c % 100
    if f = 0 then toString i ++ ".0"
    else if f % 10 = 0 then toString i ++ "." ++ toString (f / 10)
    else if f < 10 then toString i ++ ".0" ++ toString f
    else toString i ++ "." ++ toString f
  else toString q

/-- Python `repr` of a float value (sign plus `floatReprAbs`). -/
def floatRepr (q : ℚ) : String :=
  if q < 0 then "-" ++ floatReprAbs (-q) else floatReprAbs q

/-- JSON string escaping (quotes and backslashes; the snapshot keys
`account_<n>` contain nothing else that needs escaping). -/
def jsonEscapeChar (c : Char) : List Char :=
  if c = '\"' then ['\\', '\"'] else if c = '\\' then ['\\', '\\'] else [c]

/-- A JSON string literal. -/
def jsonStr (s : String) : String :=
  "\"" ++ String.mk (s.data.bind jsonEscapeChar) ++ "\""

/-- The quota-only projection of a balance snapshot: the dict comprehension
`\x7bk: v['quota'] for k, v in balances.items()\x7d` (checkin.py:48). -/
def quotaProj (balances : List (String × ℚ × ℚ)) : List (String × ℚ) :=
  balances.map (fun b => (b.1, b.2.1))

/-- `json.dumps(simple, sort_keys=True, separators=(',', ':'))`: keys sorted,
compact separators. -/
def dumpsSorted (simple : List (String × ℚ)) : String :=
  let sorted := simple.insertionSort (fun a b => a.1 ≤ b.1)
  "\x7b" ++ String.intercalate ","
    (sorted.map (fun p => jsonStr p.1 ++ ":" ++ floatRepr p.2)) ++ "\x7d"

/-- `generate_balance_hash` (checkin.py:45-50): drop the used-quota values,
serialize the quota map as canonical JSON, and keep the first 16 hex
characters of its SHA-256 digest. -/
def generate_balance_hash (balances : List (String × ℚ × ℚ)) : String :=
  let simple_balances := match balances with
    | [] => []
    | _ => quotaProj balances
  let balance_json := dumpsSorted simple_balances
  String.mk ((sha256hexChars (utf8Encode balance_json.data)).take 16)

/-- `load_balance_hash` (checkin.py:25-33), over the state of the hash file:
absent (`none`), unreadable (`.error`, the `except` path), or its text.  The
two failure shapes both yield `None`; otherwise the stripped content. -/
def load_balance_hash (file : Option (Except Unit String)) : Option String :=
  match file with
  | none => none
  | some (.error _) => none
  | some (.ok content) => some (String.mk (pstrip content.data))

/-- `generate_balance_hash(current_balances) if current_balances else None`
(checkin.py:377). -/
def currentBalanceHash (current_balances : List (String × ℚ × ℚ)) : Option String :=
  match current_balances with
  | [] => none
  | _ => some (generate_balance_hash current_balances)

/-- The balance-changed decision (checkin.py:378-386): nothing changed when
the current hash is falsy (`None` or empty); otherwise a missing previous
hash (first run) or a differing hash means changed. -/
def balance_changed_of (current_hash last_hash : Option String) : Bool :=
  match current_hash with
  | none => false
  | some h =>
    if h = "" then false
    else
      match last_hash with
      | none => true
      | some l => decide (h ≠ l)

/-- The outcome of one `await check_in_account(...)` call inside `main`'s
loop: its returned pair, or an exception caught at checkin.py:367. -/
abbrev AccountOutcome := Except String (Bool × Option UserInfoResult)

/-- `f'account_{i + 1}'` (checkin.py:334). -/
def account_key (i : ℕ) : String := "account_" ++ toString (i + 1)

/-- The `success_count` accumulated by `main`'s loop (checkin.py:349-350). -/
def successCount (outs : List AccountOutcome) : ℕ :=
  outs.foldl
    (fun n o => match o with
      | .ok (true, _) => n + 1
      | _ => n)
    0

/-- The `current_balances` dict accumulated by `main`'s loop
(checkin.py:351-357): one entry per account whose check-in succeeded and
whose user-info fetch reported success. -/
def balancesOf (outs : List AccountOutcome) : List (String × ℚ × ℚ) :=
  outs.enum.foldl
    (fun acc io => match io with
      | (i, .ok (true, some ui)) =>
        if ui.success then acc ++ [(account_key i, ui.quota, ui.used_quota)] else acc
      | _ => acc)
    []

/-- What `main` did: the terminal event (`.ok code` for `sys.exit(code)`,
`.error` for an exception escaping `main`, caught by `run_main`), and whether
a notification dispatch was attempted. -/
structure MainOutcome where
  exitEvent : Except String ℕ
  notified : Bool

/-- `main` (checkin.py:311-410), over the account outcomes, the hash-file
state, and whether the external `notify.push_message` collaborator raises.
An empty account list exits 1 immediately; otherwise the loop results are
aggregated, the balance hash compared, and a notification dispatched when
there are failures or the balance changed — `notify.push_message` is not
wrapped in any `try`, so if it raises, the exception escapes `main` before
`sys.exit` is reached. -/
def checkinMain (outs : List AccountOutcome) (hash_file : Option (Except Unit String))
    (notify_raises : Bool) : MainOutcome :=
  if outs.isEmpty then ⟨.ok 1, false⟩
  else
    let last_balance_hash := load_balance_hash hash_file
    let success_count := successCount outs
    let current_balances := balancesOf outs
    let current_balance_hash := currentBalanceHash current_balances
    let balance_changed := balance_changed_of current_balance_hash last_balance_hash
    let has_failures := decide (success_count < outs.length)
    let should_notify := has_failures || balance_changed
    if should_notify then
      if notify_raises then ⟨.error "notify.push_message raised", true⟩
      else ⟨.ok (if 0 < success_count then 0 else 1), true⟩
    else ⟨.ok (if 0 < success_count then 0 else 1), false⟩

/-- `run_main` (checkin.py:413-422): the process exit code — `sys.exit`'s
argument when `main` ran to an exit, `1` when an exception (or interrupt)
escaped `main`. -/
def run_main (program : MainOutcome) : ℕ :=
  match program.exitEvent with
  | .ok code => code
  | .error _ => 1

/-! ## Dictionary lemmas -/

/-- The overwriting map of `dupd` does not disturb lookups of other keys. -/
theorem find?_map_overwrite (ps : CookieDict) (k v k' : PStr) (hk' : k' ≠ k) :
    ((ps.map (fun p => if p.1 = k then (k, v) else p)).find?
        (fun p => decide (p.1 = k'))).map (fun p => p.2) =
      (ps.find? (fun p => decide (p.1 = k'))).map (fun p => p.2) := by
  induction ps with
  | nil => rfl
  | cons q qs ih =>
    rw [List.map_cons]
    by_cases hq : q.1 = k
    · have e1 : (decide ((k, v).1 = k') : Bool) = false :=
        decide_eq_false (fun h => hk' h.symm)
      have e2 : (decide (q.1 = k') : Bool) = false :=
        decide_eq_false (by rw [hq]; exact fun h => hk' h.symm)
      rw [if_pos hq, List.find?_cons, List.find?_cons]
      simp only [e1, e2]
      exact ih
    · rw [if_neg hq, List.find?_cons, List.find?_cons]
      by_cases hq' : q.1 = k'
      · have e : (decide (q.1 = k') : Bool) = true := decide_eq_true hq'
        simp only [e]
      · have e : (decide (q.1 = k') : Bool) = false := decide_eq_false hq'
        simp only [e]
        exact ih

/-- The overwriting map of `dupd` makes the written key map to the new value,
provided the key occurs. -/
theorem find?_map_overwrite_self (ps : CookieDict) (k v : PStr)
    (hmem : ps.any (fun p => decide (p.1 = k)) = true) :
    ((ps.map (fun p => if p.1 = k then (k, v) else p)).find?
        (fun p => decide (p.1 = k))).map (fun p => p.2) = some v := by
  induction ps with
  | nil => simp at hmem
  | cons q qs ih =>
    rw [List.map_cons]
    by_cases hq : q.1 = k
    · rw [if_pos hq, List.find?_cons]
      simp only [decide_eq_true (rfl : (k, v).1 = k)]
      rfl
    · rw [if_neg hq, List.find?_cons]
      simp only [List.any_cons, Bool.or_eq_true_iff, decide_eq_true_eq] at hmem
      rcases hmem with h | h
      · exact absurd h hq
      · have e : (decide (q.1 = k) : Bool) = false := decide_eq_false hq
        simp only [e]
        exact ih h

/-- Lookup after an insert-or-overwrite: the inserted key now maps to the new
value; other keys are untouched. -/
theorem dget_dupd (d : CookieDict) (k v k' : PStr) :
    dget (dupd d k v) k' = if k' = k then some v else dget d k' := by
  unfold dupd dget
  by_cases hmem : d.any (fun p => decide (p.1 = k)) = true
  · rw [if_pos hmem]
    by_cases hk' : k' = k
    · rw [if_pos hk']
      subst hk'
      exact find?_map_overwrite_self d k' v hmem
    · rw [if_neg hk']
      exact find?_map_overwrite d k v k' hk'
  · rw [if_neg hmem]
    have hnone : d.find? (fun p => decide (p.1 = k)) = none := by
      rw [List.find?_eq_none]
      intro p hp hcontra
      exact hmem (List.any_eq_true.mpr ⟨p, hp, hcontra⟩)
    by_cases hk' : k' = k
    · rw [if_pos hk', hk', List.find?_append, hnone, Option.none_or, List.find?_cons]
      simp only [decide_eq_true (rfl : (k, v).1 = k)]
      rfl
    · rw [if_neg hk', List.find?_append]
      cases hfind : d.find? (fun p => decide (p.1 = k')) with
      | some p => rfl
      | none =>
        have e : (decide ((k, v).1 = k') : Bool) = false :=
          decide_eq_false (fun h => hk' h.symm)
        rw [Option.none_or, List.find?_cons]
        simp only [e]
        rfl

/-- A key bound in the dict being written over the base wins: merged lookup is
lookup in the overriding dict first (its last duplicate winning), then in the
base. -/
theorem dget_dmerge_of_nodup (a b : CookieDict) (k : PStr)
    (hnodup : (b.map Prod.fst).Nodup) :
    dget (dmerge a b) k = (dget b k).orElse (fun _ => dget a k) := by
  induction b generalizing a with
  | nil => simp [dmerge, dget]
  | cons p ps ih =>
    simp only [List.map_cons, List.nodup_cons] at hnodup
    have hmerge : dmerge a (p :: ps) = dmerge (dupd a p.1 p.2) ps := rfl
    rw [hmerge, ih _ hnodup.2]
    by_cases hk : k = p.1
    · have hps : dget ps k = none := by
        unfold dget
        rw [Option.map_eq_none', List.find?_eq_none]
        intro q hq hcontra
        rw [hk] at hcontra
        exact hnodup.1 ((of_decide_eq_true hcontra) ▸ List.mem_map_of_mem Prod.fst hq)
      have hhead : dget (p :: ps) k = some p.2 := by
        unfold dget
        rw [List.find?_cons]
        simp only [decide_eq_true hk.symm]
        rfl
      rw [hps, hhead, dget_dupd, if_pos hk]
      rfl
    · have hcons : dget (p :: ps) k = dget ps k := by
        unfold dget
        rw [List.find?_cons]
        have e : (decide (p.1 = k) : Bool) = false :=
          decide_eq_false (fun h => hk h.symm)
        simp only [e]
      rw [hcons]
      cases hps : dget ps k with
      | some v => rfl
      | none =>
        show dget (dupd a p.1 p.2) k = dget a k
        rw [dget_dupd, if_neg hk]

/-! ## C1: cookie merge precedence -/

/-- C1: for every cookie name defined in both the acquired WAF cookie set and
the user's normalized cookie set, the merged dict that `prepare_cookies`
returns maps that name to the user-supplied value — WAF cookies are written
first and `\x7b**waf, **user\x7d` is last-write-wins, so user cookies override
same-named WAF cookies (refuting the spec's data-model sentence that WAF
entries take precedence). -/
theorem prepare_cookies_user_overrides_waf
    (waf_cookies user_cookies : CookieDict) (name wv uv : PStr)
    (hw : dget waf_cookies name = some wv)
    (hu : dget user_cookies name = some uv)
    (hnodup : (user_cookies.map Prod.fst).Nodup) :
    prepare_cookies true (some waf_cookies) user_cookies =
        some (dmerge waf_cookies user_cookies) ∧
      dget (dmerge waf_cookies user_cookies) name = some uv := by
  have hne : waf_cookies ≠ [] := by
    intro h
    rw [h] at hw
    simp [dget] at hw
  constructor
  · simp [prepare_cookies, hne]
  · rw [dget_dmerge_of_nodup _ _ _ hnodup, hu]
    rfl

/-- C1 witness: a concrete shared name, resolved to the user value. -/
theorem prepare_cookies_user_overrides_waf_witness :
    prepare_cookies true (some [("acw_tc".data, "waf-value".data)])
        [("acw_tc".data, "user-value".data)] =
        some (dmerge [("acw_tc".data, "waf-value".data)]
          [("acw_tc".data, "user-value".data)]) ∧
      dget (dmerge [("acw_tc".data, "waf-value".data)]
          [("acw_tc".data, "user-value".data)]) ("acw_tc".data) =
        some ("user-value".data) :=
  prepare_cookies_user_overrides_waf _ _ _ ("waf-value".data) _
    (by decide) (by decide) (by decide)

/-! ## C10: empty required-cookie list -/

/-- With an empty required-name list the collection loop keeps nothing. -/
theorem collectWafCookies_nil_required (cookies : List BrowserCookie) :
    collectWafCookies cookies [] = [] := by
  unfold collectWafCookies
  suffices h : ∀ d : CookieDict,
      cookies.foldl
        (fun d c =>
          match c.name, c.value with
          | some n, some v => if n ∈ ([] : List PStr) then dupd d n v else d
          | _, _ => d)
        d = d by
    exact h []
  intro d
  induction cookies generalizing d with
  | nil => rfl
  | cons c cs ih =>
    rw [List.foldl_cons]
    cases hn : c.name with
    | none => exact ih d
    | some n =>
      cases hv : c.value with
      | none => exact ih d
      | some v => simp only [List.mem_nil_iff, if_false]; exact ih d

/-- C10: for a provider that requires WAF cookies but declares an empty
required-name list, acquisition succeeds with an empty (non-null) cookie set,
yet `prepare_cookies` fails the account anyway: its falsiness test
`if not waf_cookies` cannot tell a successfully acquired empty set from an
acquisition failure, so "fail the account if acquisition returns null" is in
fact "fail if acquisition returns null or an empty set". -/
theorem prepare_cookies_empty_waf_set :
    (∀ cookies : List BrowserCookie,
        get_waf_cookies_with_playwright (.ok cookies) [] = some []) ∧
    (∀ user_cookies : CookieDict,
        prepare_cookies true (some []) user_cookies = none) ∧
    (∀ (acquired : Option CookieDict) (user_cookies : CookieDict),
        prepare_cookies true acquired user_cookies = none ↔
          acquired = none ∨ acquired = some []) := by
  refine ⟨?_, ?_, ?_⟩
  · intro cookies
    simp only [get_waf_cookies_with_playwright]
    rw [collectWafCookies_nil_required]
    rfl
  · intro user_cookies
    rfl
  · intro acquired user_cookies
    cases acquired with
    | none => simp [prepare_cookies]
    | some w =>
      by_cases hw : w = []
      · subst hw
        simp [prepare_cookies]
      · simp [prepare_cookies, hw]

/-! ## C2: automatic check-in providers always succeed once cookies prepared -/

/-- C2: for a provider with `requiresManualCheckin` false, once the cookies
were prepared successfully `check_in_account` returns success `True` no
matter how the user-info fetch went — `get_user_info` catches every exception
internally (a transport exception becomes a failure result, second conjunct),
so no observable outcome of the fetch can make the account fail. -/
theorem check_in_account_auto_success :
    (∀ (pc : ProviderConfig) (cookies_data : CookiesData)
        (acquired : Option CookieDict) (fetch : FetchOutcome)
        (response : HttpResponse) (prepared : CookieDict),
        pc.needs_manual_check_in = false →
        parse_cookies cookies_data ≠ [] →
        prepare_cookies pc.needs_waf_cookies acquired (parse_cookies cookies_data) =
          some prepared →
        check_in_account (some pc) cookies_data acquired fetch response =
          (true, some (get_user_info fetch))) ∧
    (∀ m, (get_user_info (.exn m)).success = false) := by
  constructor
  · intro pc cookies_data acquired fetch response prepared hmanual hne hprep
    simp only [check_in_account]
    rw [if_neg hne, hprep, hmanual]
    simp
  · intro m
    rfl

/-- C2 witness: a provider without manual check-in, valid user cookies, and a
user-info fetch that raised a transport exception — the account still counts
as a success, and the fetch outcome was internally converted to a failure
result. -/
theorem check_in_account_auto_success_witness :
    check_in_account
        (some ⟨"https://example.com", "/login", "/sign_in", "/self", "api-user",
          [], false, false⟩)
        (.dict [("session".data, "v1".data)]) none (.exn "ReadTimeout")
        ⟨0, .error []⟩ =
      (true, some (get_user_info (.exn "ReadTimeout"))) ∧
    (get_user_info (.exn "ReadTimeout")).success = false :=
  ⟨check_in_account_auto_success.1 _ _ none (.exn "ReadTimeout") ⟨0, .error []⟩
      (dmerge [] [("session".data, "v1".data)]) rfl (by decide) rfl,
    check_in_account_auto_success.2 "ReadTimeout"⟩

/-! ## Hash shape lemmas -/

/-- Hex expansion doubles the length. -/
theorem bind_byteHex_length (l : List ℕ) : (l.bind byteHex).length = 2 * l.length := by
  induction l with
  | nil => rfl
  | cons b bs ih =>
    show (byteHex b ++ bs.bind byteHex).length = 2 * (b :: bs).length
    rw [List.length_append, ih]
    simp [byteHex]
    omega

/-- A SHA-256 state always renders to 32 bytes. -/
theorem h8Bytes_length (st : Hash8) : (h8Bytes st).length = 32 := by
  simp [h8Bytes, wordBytes]

/-- A SHA-256 hexdigest always has 64 characters. -/
theorem sha256hexChars_length (msg : List ℕ) : (sha256hexChars msg).length = 64 := by
  unfold sha256hexChars
  rw [bind_byteHex_length, h8Bytes_length]

/-- Every hex digit of a value below 16 is one of the sixteen digits. -/
theorem hexDigit_mem_of_lt (n : ℕ) (h : n < 16) : hexDigit n ∈ hexDigits := by
  interval_cases n <;> decide

/-- Every character of a SHA-256 hexdigest is a lowercase hex digit. -/
theorem sha256hexChars_mem (msg : List ℕ) :
    ∀ c ∈ sha256hexChars msg, c ∈ hexDigits := by
  intro c hc
  unfold sha256hexChars at hc
  rcases List.mem_bind.mp hc with ⟨b, _, hcb⟩
  simp only [byteHex, List.mem_cons, List.mem_singleton] at hcb
  rcases hcb with h | h | h
  · exact h ▸ hexDigit_mem_of_lt _ (Nat.mod_lt _ (by omega))
  · exact h ▸ hexDigit_mem_of_lt _ (Nat.mod_lt _ (by omega))
  · cases h

/-- `generate_balance_hash` factors through the quota projection. -/
theorem generate_balance_hash_eq (balances : List (String × ℚ × ℚ)) :
    generate_balance_hash balances =
      String.mk ((sha256hexChars
        (utf8Encode (dumpsSorted (quotaProj balances)).data)).take 16) := by
  cases balances with
  | nil => rfl
  | cons b bs => rfl

/-- The truncated fingerprint always has exactly 16 characters. -/
theorem generate_balance_hash_length (balances : List (String × ℚ × ℚ)) :
    (generate_balance_hash balances).length = 16 := by
  rw [generate_balance_hash_eq]
  show (List.take 16 _).length = 16
  rw [List.length_take, sha256hexChars_length]
  rfl

/-- The truncated fingerprint is never the empty string. -/
theorem generate_balance_hash_ne_empty (balances : List (String × ℚ × ℚ)) :
    generate_balance_hash balances ≠ "" := by
  intro h
  have := congrArg String.length h
  rw [generate_balance_hash_length] at this
  simp [String.length] at this

/-! ## C6: the fingerprint depends on quota values only -/

/-- C6: the balance fingerprint depends only on the account keys and quota
values: snapshots agreeing on the quota projection (any used-quota values)
hash identically; the hash is always 16 lowercase hex characters; and — the
forward direction of the claim's iff, the one that holds of the truncated
digest — a hash change implies a quota-projection change.  (The converse,
that every quota change changes the truncated digest, is collision freedom of
truncated SHA-256 and is not claimed over the digest.) -/
theorem generate_balance_hash_quota_only :
    (∀ l1 l2 : List (String × ℚ × ℚ),
        quotaProj l1 = quotaProj l2 →
        generate_balance_hash l1 = generate_balance_hash l2) ∧
    (∀ l : List (String × ℚ × ℚ),
        (generate_balance_hash l).length = 16 ∧
        ∀ c ∈ (generate_balance_hash l).data, c ∈ hexDigits) ∧
    (∀ l1 l2 : List (String × ℚ × ℚ),
        generate_balance_hash l1 ≠ generate_balance_hash l2 →
        quotaProj l1 ≠ quotaProj l2) := by
  have hproj : ∀ l1 l2 : List (String × ℚ × ℚ),
      quotaProj l1 = quotaProj l2 →
      generate_balance_hash l1 = generate_balance_hash l2 := by
    intro l1 l2 h
    rw [generate_balance_hash_eq, generate_balance_hash_eq, h]
  refine ⟨hproj, ?_, ?_⟩
  · intro l
    refine ⟨generate_balance_hash_length l, ?_⟩
    intro c hc
    rw [generate_balance_hash_eq] at hc
    have hc' : c ∈ (sha256hexChars
        (utf8Encode (dumpsSorted (quotaProj l)).data)).take 16 := hc
    exact sha256hexChars_mem _ c (List.take_subset 16 _ hc')
  · intro l1 l2 hne hq
    exact hne (hproj l1 l2 hq)

/-- C6 witness: two snapshots with the same key and quota but different
used-quota values hash identically. -/
theorem generate_balance_hash_quota_only_witness :
    generate_balance_hash [("account_1", 2, 1)] =
      generate_balance_hash [("account_1", 2, 5)] :=
  generate_balance_hash_quota_only.1 _ _ rfl

/-! ## C3: the balance-changed decision rule -/

/-- C3: at end of run `balance_changed` is true exactly when the snapshot is
non-empty and the previously loaded hash is either null or differs from the
current hash; an absent (`none`) or unreadable (`.error`) hash file loads as
null, so a first run with a non-empty snapshot is always "changed", and an
empty snapshot is never "changed". -/
theorem balance_changed_rule :
    (∀ (balances : List (String × ℚ × ℚ)) (last : Option String),
        balance_changed_of (currentBalanceHash balances) last = true ↔
          balances ≠ [] ∧
            (last = none ∨ some (generate_balance_hash balances) ≠ last)) ∧
    load_balance_hash none = none ∧
    (∀ e, load_balance_hash (some (.error e)) = none) := by
  refine ⟨?_, rfl, fun e => rfl⟩
  intro balances last
  cases balances with
  | nil => simp [currentBalanceHash, balance_changed_of]
  | cons b bs =>
    have hne : generate_balance_hash (b :: bs) ≠ "" :=
      generate_balance_hash_ne_empty (b :: bs)
    show balance_changed_of (some (generate_balance_hash (b :: bs))) last = true ↔ _
    simp only [balance_changed_of]
    rw [if_neg hne]
    cases last with
    | none => simp
    | some l => simp

/-! ## C4: the notification decision -/

/-- C4: a notification is dispatched exactly when some account failed
(`successCount < totalCount`) or the balance changed — each disjunct alone
suffices, and when both are false the run is silent. -/
theorem should_notify_rule :
    ∀ (outs : List AccountOutcome) (hash_file : Option (Except Unit String))
      (notify_raises : Bool),
      (checkinMain outs hash_file notify_raises).notified = true ↔
        successCount outs < outs.length ∨
          balance_changed_of (currentBalanceHash (balancesOf outs))
            (load_balance_hash hash_file) = true := by
  intro outs hash_file notify_raises
  by_cases hempty : outs.isEmpty = true
  · have h0 : outs = [] := by
      cases outs with
      | nil => rfl
      | cons o os => simp [List.isEmpty] at hempty
    subst h0
    simp [checkinMain, successCount, balancesOf, currentBalanceHash,
      balance_changed_of]
  · simp only [checkinMain]
    rw [if_neg hempty]
    by_cases hs : (decide (successCount outs < outs.length) ||
        balance_changed_of (currentBalanceHash (balancesOf outs))
          (load_balance_hash hash_file)) = true
    · rw [if_pos hs]
      have hrhs : successCount outs < outs.length ∨
          balance_changed_of (currentBalanceHash (balancesOf outs))
            (load_balance_hash hash_file) = true := by
        simpa using hs
      cases notify_raises <;> simp [hrhs]
    · rw [if_neg hs]
      have hrhs : ¬(successCount outs < outs.length ∨
          balance_changed_of (currentBalanceHash (balancesOf outs))
            (load_balance_hash hash_file) = true) := by
        simpa using hs
      simp [hrhs]

/-! ## C5: the process exit code -/

/-- C5 counterexample: one of two accounts succeeds (so the claim demands
exit code 0), a notification is due, and the notification collaborator
raises — the exception escapes `main`, `run_main` catches it, and the
process exits 1. -/
theorem run_main_exit_code_counterexample :
    successCount [Except.ok (true, none), Except.ok (false, none)] = 1 ∧
    run_main (checkinMain [Except.ok (true, none), Except.ok (false, none)]
      none true) = 1 := by
  constructor
  · rfl
  · rfl

/-- C5 as amended: the process exits 0 iff at least one account succeeded at
check-in AND no notification failure intervened — `notify.push_message` is
called before `sys.exit` and is not wrapped in any `try`, so when a dispatch
was attempted and the collaborator raises, the run exits 1 even if every
account succeeded.  An empty account configuration exits 1, and the exit code
is always 0 or 1 (any exception escaping `main` is mapped to 1). -/
theorem run_main_exit_code :
    (∀ (outs : List AccountOutcome) (hash_file : Option (Except Unit String))
        (notify_raises : Bool),
        run_main (checkinMain outs hash_file notify_raises) = 0 ↔
          0 < successCount outs ∧
            ¬((checkinMain outs hash_file notify_raises).notified = true ∧
              notify_raises = true)) ∧
    (∀ (hash_file : Option (Except Unit String)) (notify_raises : Bool),
        run_main (checkinMain [] hash_file notify_raises) = 1) ∧
    (∀ (outs : List AccountOutcome) (hash_file : Option (Except Unit String))
        (notify_raises : Bool),
        run_main (checkinMain outs hash_file notify_raises) = 0 ∨
        run_main (checkinMain outs hash_file notify_raises) = 1) := by
  refine ⟨?_, fun _ _ => rfl, ?_⟩
  · intro outs hash_file notify_raises
    by_cases hempty : outs.isEmpty = true
    · have h0 : outs = [] := by
        cases outs with
        | nil => rfl
        | cons o os => simp [List.isEmpty] at hempty
      subst h0
      simp [checkinMain, run_main, successCount]
    · simp only [checkinMain]
      rw [if_neg hempty]
      by_cases hs : (decide (successCount outs < outs.length) ||
          balance_changed_of (currentBalanceHash (balancesOf outs))
            (load_balance_hash hash_file)) = true
      · rw [if_pos hs]
        cases notify_raises with
        | true => simp [run_main]
        | false =>
          by_cases hsc : 0 < successCount outs
          · simp [run_main, hsc]
          · simp [run_main, hsc]
      · rw [if_neg hs]
        by_cases hsc : 0 < successCount outs
        · simp [run_main, hsc]
        · simp [run_main, hsc]
  · intro outs hash_file notify_raises
    by_cases hempty : outs.isEmpty = true
    · have h0 : outs = [] := by
        cases outs with
        | nil => rfl
        | cons o os => simp [List.isEmpty] at hempty
      subst h0
      right
      rfl
    · simp only [checkinMain]
      rw [if_neg hempty]
      by_cases hs : (decide (successCount outs < outs.length) ||
          balance_changed_of (currentBalanceHash (balancesOf outs))
            (load_balance_hash hash_file)) = true
      · rw [if_pos hs]
        cases notify_raises with
        | true => right; rfl
        | false =>
          by_cases hsc : 0 < successCount outs
          · left; simp [run_main, hsc]
          · right; simp [run_main, hsc]
      · rw [if_neg hs]
        by_cases hsc : 0 < successCount outs
        · left; simp [run_main, hsc]
        · right; simp [run_main, hsc]

/-! ## C7: check-in response classification -/

/-- C7 counterexample: an HTTP 200 response whose body decodes to a JSON
array does not return `False` — `result.get` raises `AttributeError`, which
`except json.JSONDecodeError` does not catch, so `execute_check_in` raises
instead of returning. -/
theorem execute_check_in_counterexample :
    execute_check_in ⟨200, .ok (.arr [])⟩ = .error "AttributeError" ∧
    execute_check_in ⟨200, .ok (.arr [])⟩ ≠ .ok false ∧
    execute_check_in ⟨200, .ok (.arr [])⟩ ≠ .ok true :=
  ⟨rfl, fun h => Except.noConfusion h, fun h => Except.noConfusion h⟩

/-- C7 as amended: `execute_check_in` returns `True` iff the status is 200
and either the body decodes to a JSON object satisfying
`ret == 1 or code == 0 or success` or the body is undecodable and its raw
text contains "success" case-insensitively; it raises `AttributeError`
(uncaught) iff the status is 200 and the body decodes to a non-object JSON
value; every other combination — any non-200 status included — returns
`False`. -/
theorem execute_check_in_classification :
    ∀ (st : ℕ) (body : Except PStr JVal),
      (execute_check_in ⟨st, body⟩ = .ok true ↔
        st = 200 ∧
          ((∃ kvs, body = .ok (.obj kvs) ∧ checkinSuccessFields kvs = true) ∨
           (∃ raw, body = .error raw ∧ containsSuccess raw = true))) ∧
      (execute_check_in ⟨st, body⟩ = .error "AttributeError" ↔
        st = 200 ∧ ∃ j, body = .ok j ∧ ∀ kvs, j ≠ .obj kvs) ∧
      (execute_check_in ⟨st, body⟩ = .ok false ↔
        ¬(st = 200 ∧
          ((∃ kvs, body = .ok (.obj kvs) ∧ checkinSuccessFields kvs = true) ∨
           (∃ raw, body = .error raw ∧ containsSuccess raw = true))) ∧
        ¬(st = 200 ∧ ∃ j, body = .ok j ∧ ∀ kvs, j ≠ .obj kvs)) := by
  intro st body
  by_cases hst : st = 200
  · subst hst
    cases body with
    | error raw =>
      by_cases hcs : containsSuccess raw = true
      · simp [execute_check_in, hcs]
      · simp [execute_check_in, hcs]
    | ok j =>
      cases j with
      | null => simp [execute_check_in]
      | bool b => simp [execute_check_in]
      | num q => simp [execute_check_in]
      | str s => simp [execute_check_in]
      | arr xs => simp [execute_check_in]
      | obj kvs =>
        by_cases hf : checkinSuccessFields kvs = true
        · simp [execute_check_in, hf]
        · simp [execute_check_in, hf]
  · simp [execute_check_in, hst]

/-! ## C8: WAF acquisition atomicity -/

/-- Membership after an insert-or-overwrite: an element of the updated dict
was in the original dict or carries the written key. -/
theorem mem_dupd (d : CookieDict) (k v : PStr) (p : PStr × PStr)
    (hp : p ∈ dupd d k v) : p ∈ d ∨ p.1 = k := by
  unfold dupd at hp
  by_cases hmem : d.any (fun p => decide (p.1 = k)) = true
  · rw [if_pos hmem] at hp
    rcases List.mem_map.mp hp with ⟨q, hq, he⟩
    by_cases hqk : q.1 = k
    · rw [if_pos hqk] at he
      right
      rw [← he]
    · rw [if_neg hqk] at he
      left
      rw [← he]
      exact hq
  · rw [if_neg hmem] at hp
    rcases List.mem_append.mp hp with h | h
    · left
      exact h
    · right
      rcases List.mem_singleton.mp h with rfl
      rfl

/-- Key membership after an insert-or-overwrite. -/
theorem dhas_dupd (d : CookieDict) (k v k' : PStr) :
    dhas (dupd d k v) k' = true ↔ dhas d k' = true ∨ k' = k := by
  have h := dget_dupd d k v k'
  constructor
  · intro hd
    rcases List.any_eq_true.mp hd with ⟨p, hp, hpk⟩
    rcases mem_dupd d k v p hp with hin | hkey
    · by_cases hk : k' = k
      · right
        exact hk
      · left
        exact List.any_eq_true.mpr ⟨p, hin, hpk⟩
    · right
      rw [← hkey]
      exact (of_decide_eq_true hpk).symm
  · intro hd
    rcases hd with hd | hd
    · rcases List.any_eq_true.mp hd with ⟨p, hp, hpk⟩
      by_cases hk : k' = k
      · subst hk
        unfold dhas dupd
        rw [if_pos (List.any_eq_true.mpr ⟨p, hp, hpk⟩)]
        apply List.any_eq_true.mpr
        refine ⟨(k', v), List.mem_map.mpr ⟨p, hp, ?_⟩, by simp⟩
        rw [if_pos (of_decide_eq_true hpk)]
      · unfold dhas dupd
        by_cases hmem : d.any (fun p => decide (p.1 = k)) = true
        · rw [if_pos hmem]
          apply List.any_eq_true.mpr
          refine ⟨p, List.mem_map.mpr ⟨p, hp, ?_⟩, hpk⟩
          rw [if_neg]
          intro hpk'
          exact hk ((of_decide_eq_true hpk).symm.trans hpk')
        · rw [if_neg hmem]
          exact List.any_eq_true.mpr ⟨p, List.mem_append_left _ hp, hpk⟩
    · subst hd
      unfold dhas dupd
      by_cases hmem : d.any (fun p => decide (p.1 = k')) = true
      · rw [if_pos hmem]
        rcases List.any_eq_true.mp hmem with ⟨p, hp, hpk⟩
        apply List.any_eq_true.mpr
        refine ⟨(k', v), List.mem_map.mpr ⟨p, hp, ?_⟩, by simp⟩
        rw [if_pos (of_decide_eq_true hpk)]
      · rw [if_neg hmem]
        exact List.any_eq_true.mpr
          ⟨(k', v), List.mem_append_right _ (List.mem_singleton.mpr rfl), by simp⟩

/-- A key held by a dict has a value. -/
theorem dhas_iff_dget (d : CookieDict) (k : PStr) :
    dhas d k = true ↔ ∃ v, dget d k = some v := by
  unfold dhas dget
  constructor
  · intro h
    rcases List.any_eq_true.mp h with ⟨p, hp, hpk⟩
    have : (d.find? (fun p => decide (p.1 = k))).isSome = true :=
      List.find?_isSome.mpr ⟨p, hp, hpk⟩
    rcases Option.isSome_iff_exists.mp this with ⟨q, hq⟩
    exact ⟨q.2, by rw [hq]; rfl⟩
  · rintro ⟨v, hv⟩
    cases hfind : d.find? (fun p => decide (p.1 = k)) with
    | none => rw [hfind] at hv; cases hv
    | some p =>
      have hp := List.find?_some hfind
      have hmem := List.mem_of_find?_eq_some hfind
      exact List.any_eq_true.mpr ⟨p, hmem, hp⟩

/-- Every key the collection loop keeps is a required name. -/
theorem collect_keys_sub (cookies : List BrowserCookie) (required : List PStr) :
    ∀ p ∈ collectWafCookies cookies required, p.1 ∈ required := by
  unfold collectWafCookies
  suffices h : ∀ d : CookieDict, (∀ p ∈ d, p.1 ∈ required) →
      ∀ p ∈ cookies.foldl
        (fun d c =>
          match c.name, c.value with
          | some n, some v => if n ∈ required then dupd d n v else d
          | _, _ => d)
        d, p.1 ∈ required by
    exact h [] (by intro p hp; cases hp)
  intro d hd
  induction cookies generalizing d with
  | nil => exact hd
  | cons c cs ih =>
    rw [List.foldl_cons]
    apply ih
    cases hn : c.name with
    | none => exact hd
    | some n =>
      cases hv : c.value with
      | none => exact hd
      | some v =>
        show ∀ p ∈ (if n ∈ required then dupd d n v else d), p.1 ∈ required
        by_cases hreq : n ∈ required
        · rw [if_pos hreq]
          intro p hp
          rcases mem_dupd d n v p hp with hin | hkey
          · exact hd p hin
          · rw [hkey]
            exact hreq
        · rw [if_neg hreq]
          exact hd

/-- Every key the collection loop keeps comes from a browser cookie with that
name and a non-null value. -/
theorem collect_keys_sound (cookies : List BrowserCookie) (required : List PStr)
    (r : PStr) (h : dhas (collectWafCookies cookies required) r = true) :
    ∃ c ∈ cookies, c.name = some r ∧ ∃ v, c.value = some v := by
  unfold collectWafCookies at h
  suffices hs : ∀ d : CookieDict,
      dhas (cookies.foldl
        (fun d c =>
          match c.name, c.value with
          | some n, some v => if n ∈ required then dupd d n v else d
          | _, _ => d)
        d) r = true →
      dhas d r = true ∨ ∃ c ∈ cookies, c.name = some r ∧ ∃ v, c.value = some v by
    rcases hs [] h with hd | hg
    · cases hd
    · exact hg
  clear h
  intro d
  induction cookies generalizing d with
  | nil => exact fun hd => Or.inl hd
  | cons c cs ih =>
    rw [List.foldl_cons]
    intro hfold
    have hstep :
        dhas (match c.name, c.value with
          | some n, some v => if n ∈ required then dupd d n v else d
          | _, _ => d) r = true ∨
          ∃ c' ∈ cs, c'.name = some r ∧ ∃ v, c'.value = some v := ih _ hfold
    rcases hstep with hstep | hg
    · cases hn : c.name with
      | none =>
        rw [hn] at hstep
        exact Or.inl hstep
      | some n =>
        cases hv : c.value with
        | none =>
          rw [hn, hv] at hstep
          exact Or.inl hstep
        | some v =>
          rw [hn, hv] at hstep
          have hstep' : dhas (if n ∈ required then dupd d n v else d) r = true := hstep
          by_cases hreq : n ∈ required
          · rw [if_pos hreq] at hstep'
            rcases (dhas_dupd d n v r).mp hstep' with hd | hrn
            · exact Or.inl hd
            · exact Or.inr ⟨c, List.mem_cons_self c cs, by rw [hn, hrn], v, hv⟩
          · rw [if_neg hreq] at hstep'
            exact Or.inl hstep'
    · exact Or.inr (by
        rcases hg with ⟨c', hc', hrest⟩
        exact ⟨c', List.mem_cons_of_mem c hc', hrest⟩)

/-- C8: WAF acquisition is atomic.  If some required name is absent from the
browser's cookies (or present only with a null value) the acquisition returns
null, and `prepare_cookies` turns a null acquisition into a failed account,
so no partial set reaches the merge; when acquisition returns non-null, the
returned dict binds every required name to a (non-null) value and contains no
key outside the required names. -/
theorem waf_acquisition_atomic :
    (∀ (cookies : List BrowserCookie) (required : List PStr) (r : PStr),
        r ∈ required →
        (∀ c ∈ cookies, c.name = some r → c.value = none) →
        get_waf_cookies_with_playwright (.ok cookies) required = none) ∧
    (∀ (navigation : Except String (List BrowserCookie)) (required : List PStr)
        (w : CookieDict),
        get_waf_cookies_with_playwright navigation required = some w →
        (∀ r ∈ required, ∃ v, dget w r = some v) ∧ ∀ p ∈ w, p.1 ∈ required) ∧
    (∀ user_cookies : CookieDict, prepare_cookies true none user_cookies = none) := by
  refine ⟨?_, ?_, fun _ => rfl⟩
  · intro cookies required r hr hnull
    simp only [get_waf_cookies_with_playwright]
    have hnot : ¬ dhas (collectWafCookies cookies required) r = true := by
      intro hd
      rcases collect_keys_sound cookies required r hd with ⟨c, hc, hname, v, hval⟩
      rw [hnull c hc hname] at hval
      cases hval
    have hmem : r ∈ required.filter
        (fun c => decide (¬ dhas (collectWafCookies cookies required) c = true)) := by
      refine List.mem_filter.mpr ⟨hr, ?_⟩
      exact decide_eq_true hnot
    rw [if_neg (List.ne_nil_of_mem hmem)]
  · intro navigation required w hw
    cases navigation with
    | error e => cases hw
    | ok cookies =>
      simp only [get_waf_cookies_with_playwright] at hw
      by_cases hmiss : required.filter
          (fun c => decide (¬ dhas (collectWafCookies cookies required) c = true)) = []
      · rw [if_pos hmiss] at hw
        injection hw with hw'
        constructor
        · intro r hr
          have hnd : ¬ (decide
              (¬ dhas (collectWafCookies cookies required) r = true) = true) := by
            intro hd
            have hin : r ∈ required.filter
                (fun c => decide (¬ dhas (collectWafCookies cookies required) c = true)) := by
              refine List.mem_filter.mpr ⟨hr, ?_⟩
              exact hd
            rw [hmiss] at hin
            cases hin
          have hdh : dhas (collectWafCookies cookies required) r = true := by
            by_contra hcon
            exact hnd (decide_eq_true hcon)
          rw [← hw']
          exact (dhas_iff_dget _ r).mp hdh
        · intro p hp
          exact collect_keys_sub cookies required p (hw' ▸ hp)
      · rw [if_neg hmiss] at hw
        cases hw

/-- C8 witness: a required name present only with a null value fails the
whole acquisition; a complete acquisition binds the required name. -/
theorem waf_acquisition_atomic_witness :
    get_waf_cookies_with_playwright (.ok [⟨some "cdn_sec_tc".data, none⟩])
        ["cdn_sec_tc".data] = none ∧
    (∃ v, dget [("acw_tc".data, "1".data)] ("acw_tc".data) = some v) :=
  ⟨waf_acquisition_atomic.1 _ _ ("cdn_sec_tc".data) (by decide) (by decide),
    (waf_acquisition_atomic.2.1 (.ok [⟨some "acw_tc".data, some "1".data⟩])
        ["acw_tc".data] [("acw_tc".data, "1".data)] (by decide)).1
      ("acw_tc".data) (by decide)⟩

/-! ## C9: parser / mapping equivalence -/

/-- One rendered `key=value` segment. -/
def renderPair (p : PStr × PStr) : PStr := p.1 ++ '=' :: p.2

/-- The `"; "`-prefixed rendering of the remaining pairs. -/
def renderTail : List (PStr × PStr) → PStr
  | [] => []
  | p :: ps => ';' :: ' ' :: renderPair p ++ renderTail ps

/-- The semicolon-delimited string form of a cookie mapping:
`"k1=v1; k2=v2; ..."`. -/
def renderCookies : List (PStr × PStr) → PStr
  | [] => []
  | p :: ps => renderPair p ++ renderTail ps

/-- No leading whitespace character. -/
def noLeadWS (s : PStr) : Bool :=
  match s with
  | [] => true
  | c :: _ => !c.isWhitespace

/-- No trailing whitespace character. -/
def noTrailWS (s : PStr) : Bool :=
  match s.getLast? with
  | none => true
  | some c => !c.isWhitespace

/-- A well-formed (unambiguously renderable) cookie pair: the key holds no
`'='` and no `';'`, the value holds no `';'`, the key does not start and the
value does not end with whitespace. -/
def wfPair (p : PStr × PStr) : Bool :=
  !p.1.contains '=' && !p.1.contains ';' && !p.2.contains ';' &&
    noLeadWS p.1 && noTrailWS p.2

/-- Membership gives a positive `contains` test. -/
theorem contains_of_mem {c : Char} {s : PStr} (h : c ∈ s) : s.contains c = true :=
  List.elem_iff.mpr h

/-- A negative `contains` test refutes membership. -/
theorem not_mem_of_contains_eq_false {c : Char} {s : PStr}
    (h : s.contains c = false) : c ∉ s := by
  intro hmem
  rw [contains_of_mem hmem] at h
  cases h

/-- The unfolding of `splitSemi` on a cons. -/
theorem splitSemi_cons (c : Char) (rest : PStr) :
    splitSemi (c :: rest) =
      match splitSemi rest with
      | [] => [[]]
      | seg :: segs => if c = ';' then [] :: seg :: segs else (c :: seg) :: segs := rfl

/-- `splitSemi` never returns an empty list of segments. -/
theorem splitSemi_ne_nil (s : PStr) : splitSemi s ≠ [] := by
  induction s with
  | nil => simp [splitSemi]
  | cons c rest ih =>
    unfold splitSemi
    cases hs : splitSemi rest with
    | nil => simp
    | cons seg segs => by_cases hc : c = ';' <;> simp [hc]

/-- A semicolon-free string is a single segment. -/
theorem splitSemi_no_semi (s : PStr) (h : ';' ∉ s) : splitSemi s = [s] := by
  induction s with
  | nil => rfl
  | cons c rest ih =>
    have hc : c ≠ ';' := fun he => h (he ▸ List.mem_cons_self c rest)
    have hrest : ';' ∉ rest := fun hm => h (List.mem_cons_of_mem c hm)
    rw [splitSemi_cons, ih hrest]
    simp [hc]

/-- Splitting at the first semicolon of a semicolon-free prefix. -/
theorem splitSemi_append_semi (a b : PStr) (h : ';' ∉ a) :
    splitSemi (a ++ ';' :: b) = a :: splitSemi b := by
  induction a with
  | nil =>
    show splitSemi (';' :: b) = [] :: splitSemi b
    rw [splitSemi_cons]
    cases hs : splitSemi b with
    | nil => exact absurd hs (splitSemi_ne_nil b)
    | cons seg segs => simp
  | cons c a' ih =>
    have hc : c ≠ ';' := fun he => h (he ▸ List.mem_cons_self c a')
    have ha' : ';' ∉ a' := fun hm => h (List.mem_cons_of_mem c hm)
    show splitSemi (c :: (a' ++ ';' :: b)) = (c :: a') :: splitSemi b
    rw [splitSemi_cons, ih ha']
    simp [hc]

/-- A rendered segment holds no semicolon. -/
theorem renderPair_no_semi (q : PStr × PStr) (h1 : ';' ∉ q.1) (h2 : ';' ∉ q.2) :
    ';' ∉ renderPair q := by
  unfold renderPair
  intro hm
  rcases List.mem_append.mp hm with hm | hm
  · exact h1 hm
  · rcases List.mem_cons.mp hm with he | hm
    · cases he
    · exact h2 hm

/-- Splitting the rendered form: the head segment plus one space-prefixed
segment per remaining pair. -/
theorem splitSemi_render (ps : List (PStr × PStr)) :
    ∀ seg : PStr, ';' ∉ seg →
    (∀ q ∈ ps, ';' ∉ q.1 ∧ ';' ∉ q.2) →
    splitSemi (seg ++ renderTail ps) =
      seg :: ps.map (fun q => ' ' :: renderPair q) := by
  induction ps with
  | nil =>
    intro seg hseg _
    show splitSemi (seg ++ []) = [seg]
    rw [List.append_nil, splitSemi_no_semi seg hseg]
  | cons q qs ih =>
    intro seg hseg hq
    have hqw := hq q (List.mem_cons_self q qs)
    show splitSemi (seg ++ (';' :: ' ' :: renderPair q ++ renderTail qs)) = _
    rw [List.cons_append, List.cons_append, splitSemi_append_semi seg _ hseg,
      ← List.cons_append]
    have hsp : ';' ∉ (' ' :: renderPair q) := by
      intro hm
      rcases List.mem_cons.mp hm with he | hm
      · cases he
      · exact renderPair_no_semi q hqw.1 hqw.2 hm
    have hrest : splitSemi ((' ' :: renderPair q) ++ renderTail qs) =
        (' ' :: renderPair q) :: qs.map (fun q => ' ' :: renderPair q) :=
      ih (' ' :: renderPair q) hsp (fun q' hq' => hq q' (List.mem_cons_of_mem q hq'))
    rw [hrest]
    rfl

/-- `dropWhile` keeps a list whose head fails the test. -/
theorem dropWhile_eq_self_of_head (p : Char → Bool) (s : PStr)
    (h : ∀ c, s.head? = some c → p c = false) : s.dropWhile p = s := by
  cases s with
  | nil => rfl
  | cons c rest =>
    rw [List.dropWhile_cons, h c rfl]
    simp

/-- Stripping does nothing when neither end is whitespace. -/
theorem pstrip_eq_self (s : PStr)
    (h1 : ∀ c, s.head? = some c → c.isWhitespace = false)
    (h2 : ∀ c, s.getLast? = some c → c.isWhitespace = false) : pstrip s = s := by
  unfold pstrip
  rw [dropWhile_eq_self_of_head _ s h1]
  rw [dropWhile_eq_self_of_head _ s.reverse (by
    intro c hc
    rw [List.head?_reverse] at hc
    exact h2 c hc)]
  exact List.reverse_reverse s

/-- Stripping drops a leading space. -/
theorem pstrip_cons_space (s : PStr) : pstrip (' ' :: s) = pstrip s := by
  unfold pstrip
  rw [List.dropWhile_cons]
  simp

/-- A well-formed rendered segment strips to itself: its first character is
the key's head or `'='`, its last is the value's last or `'='`, and none of
those is whitespace. -/
theorem pstrip_segment (k v : PStr) (hk : noLeadWS k = true)
    (hv : noTrailWS v = true) : pstrip (k ++ '=' :: v) = k ++ '=' :: v := by
  apply pstrip_eq_self
  · intro c hc
    cases k with
    | nil =>
      simp only [List.nil_append, List.head?_cons, Option.some_inj] at hc
      rw [← hc]
      rfl
    | cons a k' =>
      simp only [List.cons_append, List.head?_cons, Option.some_inj] at hc
      rw [← hc]
      unfold noLeadWS at hk
      simpa using hk
  · intro c hc
    cases hvnil : v.getLast? with
    | none =>
      have hv0 : v = [] := List.getLast?_eq_none_iff.mp hvnil
      subst hv0
      rw [show (k ++ ['=']).getLast? = some '=' from List.getLast?_concat k] at hc
      rw [← Option.some_inj.mp hc]
      rfl
    | some b =>
      have hvne : v ≠ [] := by
        intro h0
        rw [h0] at hvnil
        cases hvnil
      have h1 : ('=' :: v : PStr).getLast? = some b := by
        rw [show ('=' :: v : PStr) = ['='] ++ v from rfl, List.getLast?_append, hvnil]
        rfl
      have he : (k ++ '=' :: v).getLast? = some b := by
        rw [List.getLast?_append, h1]
        rfl
      rw [he] at hc
      unfold noTrailWS at hv
      rw [hvnil] at hv
      rw [← Option.some_inj.mp hc]
      simpa using hv

/-- Splitting a rendered segment at the first `'='` recovers key and value
when the key itself holds no `'='`. -/
theorem splitFirst_eq (k v : PStr) (hk : '=' ∉ k) :
    splitFirst '=' (k ++ '=' :: v) = some (k, v) := by
  induction k with
  | nil =>
    show splitFirst '=' ('=' :: v) = some ([], v)
    unfold splitFirst
    rw [if_pos rfl]
  | cons c k' ih =>
    have hc : c ≠ '=' := fun he => hk (he ▸ List.mem_cons_self c k')
    have hk' : '=' ∉ k' := fun hm => hk (List.mem_cons_of_mem c hm)
    show splitFirst '=' (c :: (k' ++ '=' :: v)) = some (c :: k', v)
    unfold splitFirst
    rw [if_neg hc, ih hk']

/-- An empty segment is ignored. -/
theorem parseCookieStep_nil (d : CookieDict) : parseCookieStep d [] = d := rfl

/-- A well-formed rendered segment is written into the dict. -/
theorem parseCookieStep_pair (d : CookieDict) (k v : PStr) (hk : '=' ∉ k)
    (hlead : noLeadWS k = true) (htrail : noTrailWS v = true) :
    parseCookieStep d (renderPair (k, v)) = dupd d k v := by
  unfold parseCookieStep renderPair
  rw [if_pos (contains_of_mem (by simp : '=' ∈ (k ++ '=' :: v)))]
  rw [pstrip_segment k v hlead htrail, splitFirst_eq k v hk]

/-- A space-prefixed well-formed rendered segment is stripped and written
into the dict. -/
theorem parseCookieStep_pair_space (d : CookieDict) (k v : PStr) (hk : '=' ∉ k)
    (hlead : noLeadWS k = true) (htrail : noTrailWS v = true) :
    parseCookieStep d (' ' :: renderPair (k, v)) = dupd d k v := by
  unfold parseCookieStep
  rw [if_pos (contains_of_mem (by simp [renderPair] : '=' ∈ (' ' :: renderPair (k, v))))]
  rw [show pstrip (' ' :: renderPair (k, v)) = pstrip (renderPair (k, v)) from
    pstrip_cons_space _]
  unfold renderPair
  rw [pstrip_segment k v hlead htrail, splitFirst_eq k v hk]

/-- The components of a well-formed pair. -/
theorem wfPair_parts (p : PStr × PStr) (h : wfPair p = true) :
    '=' ∉ p.1 ∧ ';' ∉ p.1 ∧ ';' ∉ p.2 ∧ noLeadWS p.1 = true ∧
      noTrailWS p.2 = true := by
  unfold wfPair at h
  simp only [Bool.and_eq_true, Bool.not_eq_true'] at h
  exact ⟨not_mem_of_contains_eq_false h.1.1.1.1,
    not_mem_of_contains_eq_false h.1.1.1.2,
    not_mem_of_contains_eq_false h.1.1.2, h.1.2, h.2⟩

/-- Folding the parser over the space-prefixed tail segments writes the pairs
in order. -/
theorem foldl_parse_tail (qs : List (PStr × PStr)) :
    ∀ d : CookieDict, (∀ q ∈ qs, wfPair q = true) →
    (qs.map (fun q => ' ' :: renderPair q)).foldl parseCookieStep d =
      qs.foldl (fun d p => dupd d p.1 p.2) d := by
  induction qs with
  | nil => intro d _; rfl
  | cons q qs' ih =>
    intro d hwf
    rcases wfPair_parts q (hwf q (List.mem_cons_self q qs')) with
      ⟨hk, -, -, hlead, htrail⟩
    rw [List.map_cons, List.foldl_cons, List.foldl_cons]
    have hq : parseCookieStep d (' ' :: renderPair q) = dupd d q.1 q.2 := by
      have := parseCookieStep_pair_space d q.1 q.2 hk hlead htrail
      rwa [Prod.mk.eta] at this
    rw [hq]
    exact ih _ (fun q' hq' => hwf q' (List.mem_cons_of_mem q hq'))

/-- Keys of an appended dict. -/
theorem dhas_append (a b : CookieDict) (k : PStr) :
    dhas (a ++ b) k = (dhas a k || dhas b k) := by
  unfold dhas
  exact List.any_append

/-- Writing pairwise-fresh keys into a dict appends them in order. -/
theorem foldl_dupd_fresh (ps : List (PStr × PStr)) :
    ∀ acc : CookieDict, (∀ p ∈ ps, dhas acc p.1 = false) →
    (ps.map Prod.fst).Nodup →
    ps.foldl (fun d p => dupd d p.1 p.2) acc = acc ++ ps := by
  induction ps with
  | nil => intro acc _ _; rw [List.foldl_nil, List.append_nil]
  | cons p ps' ih =>
    intro acc hfresh hnodup
    simp only [List.map_cons, List.nodup_cons] at hnodup
    have hfp : (acc.any fun q => decide (q.1 = p.1)) = false :=
      hfresh p (List.mem_cons_self p ps')
    have hupd : dupd acc p.1 p.2 = acc ++ [p] := by
      unfold dupd
      rw [if_neg (by rw [hfp]; simp)]
    rw [List.foldl_cons, hupd]
    rw [ih (acc ++ [p]) ?_ hnodup.2]
    · rw [List.append_assoc]
      rfl
    · intro q hq
      rw [dhas_append]
      have h1 : dhas acc q.1 = false := hfresh q (List.mem_cons_of_mem p hq)
      have h2 : dhas [p] q.1 = false := by
        unfold dhas
        simp only [List.any_cons, List.any_nil, Bool.or_false]
        apply decide_eq_false
        intro he
        exact hnodup.1 (he ▸ List.mem_map_of_mem Prod.fst hq)
      rw [h1, h2]
      rfl

/-- Parsing the rendered form of a well-formed mapping yields the mapping. -/
theorem parse_render (pairs : List (PStr × PStr))
    (hwf : ∀ p ∈ pairs, wfPair p = true)
    (hnodup : (pairs.map Prod.fst).Nodup) :
    parse_cookies (.str (renderCookies pairs)) = pairs := by
  cases pairs with
  | nil => rfl
  | cons p ps =>
    rcases wfPair_parts p (hwf p (List.mem_cons_self p ps)) with
      ⟨hk, hs1, hs2, hlead, htrail⟩
    show (splitSemi (renderCookies (p :: ps))).foldl parseCookieStep [] = p :: ps
    rw [show renderCookies (p :: ps) = renderPair p ++ renderTail ps from rfl]
    rw [splitSemi_render ps (renderPair p) (renderPair_no_semi p hs1 hs2)
      (fun q hq => ⟨(wfPair_parts q (hwf q (List.mem_cons_of_mem p hq))).2.1,
        (wfPair_parts q (hwf q (List.mem_cons_of_mem p hq))).2.2.1⟩)]
    rw [List.foldl_cons]
    have hp : parseCookieStep [] (renderPair p) = dupd [] p.1 p.2 := by
      have := parseCookieStep_pair [] p.1 p.2 hk hlead htrail
      rwa [Prod.mk.eta] at this
    rw [hp]
    rw [foldl_parse_tail ps (dupd [] p.1 p.2)
      (fun q hq => hwf q (List.mem_cons_of_mem p hq))]
    have hsingle : dupd [] p.1 p.2 = [p] := by
      unfold dupd
      rw [if_neg (by simp)]
      rw [Prod.mk.eta]
      rfl
    rw [hsingle]
    simp only [List.map_cons, List.nodup_cons] at hnodup
    rw [foldl_dupd_fresh ps [p] ?_ hnodup.2]
    · rfl
    · intro q hq
      unfold dhas
      simp only [List.any_cons, List.any_nil, Bool.or_false]
      apply decide_eq_false
      intro he
      exact hnodup.1 (he ▸ List.mem_map_of_mem Prod.fst hq)

/-- C9: `parse_cookies` returns a mapping input unchanged; for every
well-formed mapping, parsing its semicolon-delimited rendering yields exactly
the same dict as supplying the mapping directly (parser / mapping
equivalence); the string `"a=1; b=2"` parses to exactly that mapping; and an
unsupported input shape yields an empty dict (without raising). -/
theorem parse_cookies_equivalence :
    (∀ pairs : List (PStr × PStr),
        (∀ p ∈ pairs, wfPair p = true) →
        (pairs.map Prod.fst).Nodup →
        parse_cookies (.str (renderCookies pairs)) =
          parse_cookies (.dict pairs)) ∧
    (∀ d : CookieDict, parse_cookies (.dict d) = d) ∧
    parse_cookies (.str ("a=1; b=2".data)) =
      [("a".data, "1".data), ("b".data, "2".data)] ∧
    parse_cookies CookiesData.other = [] := by
  refine ⟨?_, fun d => rfl, by decide, rfl⟩
  intro pairs hwf hnodup
  exact parse_render pairs hwf hnodup

/-- C9 witness: the rendered form of the mapping of Scenario B round-trips. -/
theorem parse_cookies_equivalence_witness :
    parse_cookies (.str (renderCookies
        [("a".data, "1".data), ("b".data, "2".data)])) =
      parse_cookies (.dict [("a".data, "1".data), ("b".data, "2".data)]) :=
  parse_cookies_equivalence.1 [("a".data, "1".data), ("b".data, "2".data)]
    (by decide) (by decide)
